import Mathlib

/-!
# Verification of the Prometheus remote-write output's aggregation core

Shallow embedding of `pkg/remotewrite/remotewrite.go`:
the per-flush aggregation/dedup engine (`convertToPbSeries`), the
series table (`tsdb : map[metrics.TimeSeries]*seriesWithMeasure`), the
per-kind sink factory (`newSeriesWithMeasure`), the wire encoder
(`MapPrompb`), the flush orchestrator (`flush`) and the trend-statistics
resolver installation (`setTrendStatsResolver`).

Modelling conventions:
- Go `time.Time` is modelled as nanoseconds (`Nat`); `Truncate(time.Millisecond)`
  floors to a multiple of 10^6 ns, `UnixMilli` divides by 10^6.
- Go `float64` sample values are modelled as `Rat`.
- A Go `panic` is modelled as an `Option`-valued function returning `none`.
- The Go map `tsdb` is modelled as an association list with at most one
  entry per key; the `seen` set is modelled as a duplicate-free list in
  insertion order (Go map iteration order is unspecified; no claim here
  depends on the order of the final slice).
- Go strings (only manipulated byte-wise, on ASCII data) are `List Char`.
-/

namespace RemoteWrite

/-- Embedding of `metrics.MetricType` from the k6 metrics library: the four recognized
kinds, plus `other` standing for any value outside the recognized set. -/
inductive MetricType where
  | counter
  | gauge
  | rate
  | trend
  | other (s : String)
deriving DecidableEq, Repr

/-- Embedding of `metrics.TimeSeries`: the series identity used as the `tsdb` map key,
consisting of the metric (name and kind) and the label set. -/
structure TimeSeries where
  name : List Char
  type : MetricType
  labels : List (List Char × List Char)
deriving DecidableEq, Repr

/-- Embedding of `metrics.Sample`: series identity, timestamp (nanoseconds) and value. -/
structure Sample where
  series : TimeSeries
  time : Nat
  value : Rat
deriving DecidableEq, Repr

/-- Embedding of `sample.Time.Truncate(time.Millisecond)`: floor the nanosecond
timestamp to a multiple of one millisecond. -/
def truncMs (t : Nat) : Nat :=
  t / 1000000 * 1000000

/-- Embedding of `time.Time.UnixMilli`: the timestamp in whole milliseconds. -/
def unixMilli (t : Nat) : Nat :=
  t / 1000000

/-- A resolver for one trend statistic, `func(*metrics.TrendSink) float64`,
applied to the retained observations of a classic trend sink. -/
abbrev TrendResolver : Type := List Rat → Rat

/-- Embedding of the `TrendStatsResolver` map, statistic key → resolver, modelled as an
association list. -/
abbrev TrendStatsResolver : Type := List (List Char × TrendResolver)

/-- Embedding of `metrics.Sink`, one variant per metric kind.
Modelled from the spec: the sink payloads live in the k6 metrics library
and in `pkg/remotewrite` files outside `src/` — Counter keeps a running
sum, Gauge the last written value, Rate numerator/denominator counts,
classic Trend the retained observation set, and the native-histogram
trend an overall count/sum (bucket detail is not needed by any claim). -/
inductive Sink where
  | counterSink (value : Rat)
  | gaugeSink (value : Rat)
  | rateSink (trues : Nat) (total : Nat)
  | trendSink (values : List Rat)
  | histogramSink (count : Nat) (sum : Rat)
deriving DecidableEq, Repr

/-- Embedding of `sink.Add(sample)`.
Modelled from the spec: the kind's combine rule — Counter adds the raw
value to the running sum, Gauge overwrites, Rate increments the
denominator always and the numerator when the value is non-zero, classic
Trend appends to the observation set, the native histogram records into
its count/sum. -/
def Sink.add (s : Sink) (sample : Sample) : Sink :=
  match s with
  | .counterSink v => .counterSink (v + sample.value)
  | .gaugeSink _ => .gaugeSink sample.value
  | .rateSink trues total =>
      .rateSink (if sample.value ≠ 0 then trues + 1 else trues) (total + 1)
  | .trendSink values => .trendSink (values ++ [sample.value])
  | .histogramSink count sum => .histogramSink (count + 1) (sum + sample.value)

/-- Embedding of `seriesWithMeasure`: one entry of the series table — the identity, its
sink (`Measure`) and the latest truncated timestamp (`Latest`). -/
structure SeriesWithMeasure where
  series : TimeSeries
  measure : Sink
  latest : Nat
deriving DecidableEq, Repr

/-- Embedding of `newSeriesWithMeasure`: build the kind-appropriate sink.  The `default`
branch of the Go `switch` panics on an unrecognized metric kind; the panic
is modelled as `none`.  (`newExtendedTrendSink` and
`newNativeHistogramSink` live outside `src/`; per the spec the trend sink
is selected once at construction by the native-histogram flag.) -/
def newSeriesWithMeasure (series : TimeSeries) (trendAsNativeHistogram : Bool)
    (_tsr : TrendStatsResolver) : Option SeriesWithMeasure :=
  match series.type with
  | .counter => some ⟨series, .counterSink 0, 0⟩
  | .gauge => some ⟨series, .gaugeSink 0, 0⟩
  | .trend =>
      if trendAsNativeHistogram then
        some ⟨series, .histogramSink 0 0, 0⟩
      else
        some ⟨series, .trendSink [], 0⟩
  | .rate => some ⟨series, .rateSink 0 0, 0⟩
  | .other _ => none

/-- The series table `o.tsdb`, an association list with at most one entry
per identity. -/
abbrev Tsdb : Type := List (TimeSeries × SeriesWithMeasure)

/-- Go map read `o.tsdb[ts]` (with presence flag). -/
def lookupT (db : Tsdb) (ts : TimeSeries) : Option SeriesWithMeasure :=
  match db with
  | [] => none
  | p :: rest => if p.1 = ts then some p.2 else lookupT rest ts

/-- Go map write `o.tsdb[ts] = swm`: replace the existing entry in place,
or append a new one. -/
def insertT (db : Tsdb) (ts : TimeSeries) (swm : SeriesWithMeasure) : Tsdb :=
  match db with
  | [] => [(ts, swm)]
  | p :: rest => if p.1 = ts then (ts, swm) :: rest else p :: insertT rest ts swm

/-- The `seen` set: the Go map write marking an identity seen, modelled as
appending the identity unless already present. -/
def insertSeen (seen : List TimeSeries) (ts : TimeSeries) : List TimeSeries :=
  if ts ∈ seen then seen else seen ++ [ts]

/-- The per-flush aggregation state: the series table and the `seen` set. -/
structure AggState where
  tsdb : Tsdb
  seen : List TimeSeries

/-- The body of the inner loop of `convertToPbSeries` for one sample:
truncate the time, look the identity up in `tsdb`; if absent create the
entry (kind-appropriate sink, `Latest` = truncated time) and mark the
identity seen; if present and the truncated time is strictly greater
(`truncTime.After(swm.Latest)`) update `Latest` and mark; otherwise leave
`Latest` and the mark alone.  In every branch `swm.Measure.Add(sample)`
runs.  `none` models the panic of `newSeriesWithMeasure`. -/
def processSample (trendAsNativeHistogram : Bool) (tsr : TrendStatsResolver)
    (st : AggState) (sample : Sample) : Option AggState :=
  let truncTime := truncMs sample.time
  match lookupT st.tsdb sample.series with
  | none =>
      match newSeriesWithMeasure sample.series trendAsNativeHistogram tsr with
      | none => none
      | some swm0 =>
          let swm := { swm0 with latest := truncTime,
                                 measure := swm0.measure.add sample }
          some ⟨insertT st.tsdb sample.series swm, insertSeen st.seen sample.series⟩
  | some swm =>
      if swm.latest < truncTime then
        let swm1 := { swm with latest := truncTime, measure := swm.measure.add sample }
        some ⟨insertT st.tsdb sample.series swm1, insertSeen st.seen sample.series⟩
      else
        let swm1 := { swm with measure := swm.measure.add sample }
        some ⟨insertT st.tsdb sample.series swm1, st.seen⟩

/-- The two nested loops of `convertToPbSeries`, over the flattened list of
the containers' samples, in arrival order. -/
def processAll (trendAsNativeHistogram : Bool) (tsr : TrendStatsResolver)
    (st : AggState) : List Sample → Option AggState
  | [] => some st
  | sample :: rest =>
      match processSample trendAsNativeHistogram tsr st sample with
      | none => none
      | some st' => processAll trendAsNativeHistogram tsr st' rest

/-- One `prompb.Sample`: epoch-millisecond timestamp and value. -/
structure PbSample where
  timestamp : Nat
  value : Rat
deriving DecidableEq, Repr

/-- One native-histogram wire point.
Modelled from the spec: histogram-kind records carry bucket data plus
total count, total sum and the epoch-millisecond timestamp; only the
count/sum/timestamp are retained here. -/
structure PbHistogram where
  timestamp : Nat
  count : Nat
  sum : Rat
deriving DecidableEq, Repr

/-- One `prompb.TimeSeries`: a label set and its points. -/
structure PbTimeSeries where
  labels : List (List Char × List Char)
  samples : List PbSample
  histograms : List PbHistogram
deriving DecidableEq, Repr

/-- Embedding of `MapSeries(series, suffix)`.
Modelled from the spec: the function lives outside `src/`; it renders the
identity's labels plus an injected canonical metric-name label whose value
is the base name with the given suffix. -/
def MapSeries (s : TimeSeries) (suffix : List Char) : List (List Char × List Char) :=
  (String.toList "__name__", s.name ++ suffix) :: s.labels

/-- Embedding of `RateSink.Format` of the k6 metrics library.
Modelled from the spec: emit returns numerator/denominator, or 0 if the
denominator is 0. -/
def rateValue (trues total : Nat) : Rat :=
  if total = 0 then 0 else (trues : Rat) / (total : Rat)

/-- Embedding of `seriesWithMeasure.MapPrompb`: encode one advanced series table entry
as wire time series.  Counter/Gauge/Rate produce one series with exactly
one point at `Latest`; a classic Trend produces one single-point series
per configured statistic (modelled from the spec: the trend sink's
`MapPrompb` lives outside `src/`, each requested statistic becomes a
separate suffix-qualified wire series); a native-histogram Trend produces
one histogram-valued point.  The `default` branch of the Go `switch`
panics on an unrecognized kind, and the Go type assertions panic when the
sink variant does not match the kind; both are modelled as `none`. -/
def MapPrompb (tsr : TrendStatsResolver) (swm : SeriesWithMeasure) :
    Option (List PbTimeSeries) :=
  match swm.series.type, swm.measure with
  | .counter, .counterSink v =>
      some [⟨MapSeries swm.series [], [⟨unixMilli swm.latest, v⟩], []⟩]
  | .gauge, .gaugeSink v =>
      some [⟨MapSeries swm.series [], [⟨unixMilli swm.latest, v⟩], []⟩]
  | .rate, .rateSink trues total =>
      some [⟨MapSeries swm.series [], [⟨unixMilli swm.latest, rateValue trues total⟩], []⟩]
  | .trend, .trendSink values =>
      some (tsr.map (fun stat =>
        ⟨MapSeries swm.series ('_' :: stat.1),
         [⟨unixMilli swm.latest, stat.2 values⟩], []⟩))
  | .trend, .histogramSink count sum =>
      some [⟨MapSeries swm.series [], [], [⟨unixMilli swm.latest, count, sum⟩]⟩]
  | _, _ => none

/-- The final loop of `convertToPbSeries`: for each identity in `seen`,
append `o.tsdb[s].MapPrompb()`.  A `seen` identity missing from `tsdb`
would dereference a nil pointer in Go; that, like the encoder's panics,
is modelled as `none`. -/
def encodeSeen (tsr : TrendStatsResolver) (db : Tsdb) :
    List TimeSeries → Option (List PbTimeSeries)
  | [] => some []
  | ts :: rest =>
      match lookupT db ts with
      | none => none
      | some swm =>
          match MapPrompb tsr swm, encodeSeen tsr db rest with
          | some l, some r => some (l ++ r)
          | _, _ => none

/-- The result of `convertToPbSeries`: the updated series table, the
`seen` set and the encoded wire series. -/
structure ConvertResult where
  tsdb : Tsdb
  seen : List TimeSeries
  pbseries : List PbTimeSeries

/-- Embedding of `convertToPbSeries`: run the aggregation loop over every sample of
every container in arrival order (starting from an empty `seen` set),
then encode the seen identities. -/
def convertToPbSeries (trendAsNativeHistogram : Bool) (tsr : TrendStatsResolver)
    (db : Tsdb) (samplesContainers : List (List Sample)) : Option ConvertResult :=
  match processAll trendAsNativeHistogram tsr ⟨db, []⟩
      (samplesContainers.flatMap (fun c => c)) with
  | none => none
  | some st =>
      match encodeSeen tsr st.tsdb st.seen with
      | none => none
      | some pb => some ⟨st.tsdb, st.seen, pb⟩

/-- One log line, by level. -/
inductive LogEvent where
  | debug (msg : String)
  | warn (msg : String)
  | error (msg : String)
deriving DecidableEq, Repr

/-- Whether a log event is the overrun warning. -/
def LogEvent.isWarn : LogEvent → Bool
  | .warn _ => true
  | _ => false

/-- Whether a log event is an error. -/
def LogEvent.isError : LogEvent → Bool
  | .error _ => true
  | _ => false

/-- The result of one `flush` execution: the series table afterwards, the
set of identities marked advanced, the payload of each `client.Store`
invocation, and the log lines in order. -/
structure FlushResult where
  tsdb : Tsdb
  advanced : List TimeSeries
  sent : List (List PbTimeSeries)
  logs : List LogEvent

/-- The deferred timing log of `flush`: a warning when the elapsed
duration strictly exceeds the configured push interval, a debug line
otherwise.  `elapsed` (Go `time.Since(start)`) is an external input of
the model, in nanoseconds like `interval`. -/
def deferredLog (interval elapsed : Nat) : LogEvent :=
  if interval < elapsed then
    .warn "Successful flushed time series to remote write endpoint but it took too long. Some samples may be dropped."
  else
    .debug "Successful flushed time series to remote write endpoint"

/-- Embedding of `flush`: drain the buffer (`samplesContainers` is what
`GetBufferedSamples` returned); if it yields no containers, log and
return without converting or storing.  Otherwise convert, invoke
`client.Store` once with the converted series, and log an error if the
store fails (`storeOk = false` models a failing transport).  The deferred
timing log always runs last.  `none` models the conversion panics. -/
def flush (trendAsNativeHistogram : Bool) (tsr : TrendStatsResolver)
    (interval : Nat) (storeOk : Bool) (db : Tsdb)
    (samplesContainers : List (List Sample)) (elapsed : Nat) : Option FlushResult :=
  if samplesContainers.length < 1 then
    some ⟨db, [], [],
      [.debug "no buffered samples, skip the flushing operation", deferredLog interval elapsed]⟩
  else
    match convertToPbSeries trendAsNativeHistogram tsr db samplesContainers with
    | none => none
    | some res =>
        if storeOk then
          some ⟨res.tsdb, res.seen, [res.pbseries],
            [.debug "Converted samples to Prometheus TimeSeries", deferredLog interval elapsed]⟩
        else
          some ⟨res.tsdb, res.seen, [res.pbseries],
            [.debug "Converted samples to Prometheus TimeSeries",
             .error "Failed to send the time series data to the endpoint",
             deferredLog interval elapsed]⟩

/-- The key transformation of `setTrendStatsResolver` for one statistic
name: a name of the percentile form `p(x)` is stored under
`"p" + remove dots (strip first two and last byte of the name)`; any
other name is kept unchanged.  (In Go, `stat[2 : len(stat)-1]` on the
two-byte string `p(` would panic; such a name cannot reach this point,
since the resolver lookup has already validated the percentile form.) -/
def statKey (stat : List Char) : List Char :=
  if stat.take 2 = ['p', '('] then
    'p' :: ((stat.drop 2).dropLast.filter (fun c => c ≠ '.'))
  else
    stat

/-- The literal statistic name `sum`. -/
def sumStat : List Char := ['s', 'u', 'm']

/-- The `sum` resolver installed by `setTrendStatsResolver`, which returns
the trend sink's `Sum` field: the sum of the trend observations. -/
def sumResolver : TrendResolver := fun values => values.sum

/-- Embedding of `setTrendStatsResolver`: copy the requested statistics excluding the
literal `sum`, resolve them through `metrics.GetResolversForTrendColumns`
(an external collaborator of the k6 metrics library, passed here as the
parameter `getResolvers`), fail if resolution fails, re-add the special
`sum` resolver when it was requested, and store each resolver under its
transformed `statKey`. -/
def setTrendStatsResolver
    (getResolvers : List (List Char) → Except String TrendStatsResolver)
    (trendStats : List (List Char)) : Except String TrendStatsResolver :=
  let trendStatsCopy := trendStats.filter (fun s => s ≠ sumStat)
  let hasSum := trendStats.contains sumStat
  match getResolvers trendStatsCopy with
  | .error e => .error e
  | .ok resolvers =>
      let resolvers' := if hasSum then resolvers ++ [(sumStat, sumResolver)] else resolvers
      .ok (resolvers'.map (fun p => (statKey p.1, p.2)))

/-- The trend-statistics stage of `New`: when the configured trend stats
are non-empty, `New` returns the error of `setTrendStatsResolver` if it
fails; construction otherwise succeeds with the built resolver table
(empty when no trend stats are configured).  The earlier configuration
stages of `New` (config consolidation, client construction) are external
collaborators and are not modelled. -/
def newTrendStage
    (getResolvers : List (List Char) → Except String TrendStatsResolver)
    (trendStats : List (List Char)) : Except String TrendStatsResolver :=
  if trendStats.length > 0 then
    setTrendStatsResolver getResolvers trendStats
  else
    .ok []

/-! ## Helper lemmas about the map and set operations -/

theorem lookupT_insertT_self (db : Tsdb) (ts : TimeSeries) (swm : SeriesWithMeasure) :
    lookupT (insertT db ts swm) ts = some swm := by
  induction db with
  | nil => simp [insertT, lookupT]
  | cons p rest ih =>
      by_cases h : p.1 = ts
      · simp [insertT, lookupT, h]
      · simp [insertT, lookupT, h, ih]

theorem lookupT_insertT_ne (db : Tsdb) (ts ts' : TimeSeries) (swm : SeriesWithMeasure)
    (h : ts' ≠ ts) : lookupT (insertT db ts swm) ts' = lookupT db ts' := by
  induction db with
  | nil => simp [insertT, lookupT, Ne.symm h]
  | cons p rest ih =>
      by_cases hp : p.1 = ts
      · subst hp
        simp [insertT, lookupT, Ne.symm h]
      · simp [insertT, lookupT, hp, ih]

theorem mem_insertSeen_self (seen : List TimeSeries) (ts : TimeSeries) :
    ts ∈ insertSeen seen ts := by
  unfold insertSeen
  by_cases h : ts ∈ seen <;> simp [h]

theorem mem_insertSeen_of_mem (seen : List TimeSeries) (ts ts' : TimeSeries)
    (h : ts' ∈ seen) : ts' ∈ insertSeen seen ts := by
  unfold insertSeen
  by_cases hm : ts ∈ seen <;> simp [hm, h]

theorem nodup_insertSeen (seen : List TimeSeries) (ts : TimeSeries)
    (h : seen.Nodup) : (insertSeen seen ts).Nodup := by
  unfold insertSeen
  by_cases hm : ts ∈ seen <;> simp [hm, h, List.nodup_append]

theorem mem_of_mem_insertSeen (seen : List TimeSeries) (ts ts' : TimeSeries)
    (h : ts' ∈ insertSeen seen ts) : ts' ∈ seen ∨ ts' = ts := by
  unfold insertSeen at h
  by_cases hm : ts ∈ seen
  · simp [hm] at h
    exact Or.inl h
  · simp [hm] at h
    exact h

theorem newSeriesWithMeasure_series (series : TimeSeries) (flag : Bool)
    (tsr : TrendStatsResolver) (swm0 : SeriesWithMeasure)
    (h : newSeriesWithMeasure series flag tsr = some swm0) : swm0.series = series := by
  unfold newSeriesWithMeasure at h
  cases htype : series.type <;> rw [htype] at h
  · cases Option.some.inj h; rfl
  · cases Option.some.inj h; rfl
  · cases Option.some.inj h; rfl
  · by_cases hf : flag
    · rw [if_pos hf] at h; cases Option.some.inj h; rfl
    · rw [if_neg hf] at h; cases Option.some.inj h; rfl
  · cases h

/-- Every series-table entry that existed before a `processSample` step
still exists afterwards; its identity is unchanged; its sink got the
sample merged exactly when the sample belongs to it; its latest truncated
timestamp never decreases, and stays put when the incoming truncated time
does not exceed it; entries for other identities are untouched. -/
theorem processSample_lookup (flag : Bool) (tsr : TrendStatsResolver)
    (st : AggState) (sample : Sample) (st' : AggState)
    (h : processSample flag tsr st sample = some st')
    (ts : TimeSeries) (swm : SeriesWithMeasure)
    (hl : lookupT st.tsdb ts = some swm) :
    ∃ swm', lookupT st'.tsdb ts = some swm'
      ∧ swm'.series = swm.series
      ∧ swm'.measure = (if sample.series = ts then swm.measure.add sample else swm.measure)
      ∧ swm.latest ≤ swm'.latest
      ∧ (sample.series = ts → truncMs sample.time ≤ swm.latest → swm'.latest = swm.latest)
      ∧ (sample.series ≠ ts → swm' = swm) := by
  unfold processSample at h
  by_cases hts : sample.series = ts
  · subst hts
    simp only [hl] at h
    by_cases hlt : swm.latest < truncMs sample.time
    · rw [if_pos hlt] at h
      cases Option.some.inj h
      refine ⟨_, lookupT_insertT_self _ _ _, rfl, by simp, le_of_lt hlt, ?_, ?_⟩
      · intro _ hle
        exact absurd hlt (not_lt.2 hle)
      · intro hne
        exact absurd rfl hne
    · rw [if_neg hlt] at h
      cases Option.some.inj h
      refine ⟨_, lookupT_insertT_self _ _ _, rfl, by simp, le_refl _, fun _ _ => rfl, ?_⟩
      intro hne
      exact absurd rfl hne
  · cases hls : lookupT st.tsdb sample.series with
    | none =>
        simp only [hls] at h
        cases hnew : newSeriesWithMeasure sample.series flag tsr with
        | none => rw [hnew] at h; cases h
        | some swm0 =>
            rw [hnew] at h
            cases Option.some.inj h
            refine ⟨swm, ?_, rfl, by simp [hts], le_refl _, fun he => absurd he hts, fun _ => rfl⟩
            rw [lookupT_insertT_ne _ _ _ _ (Ne.symm hts)]
            exact hl
    | some swm2 =>
        simp only [hls] at h
        by_cases hlt : swm2.latest < truncMs sample.time
        · rw [if_pos hlt] at h
          cases Option.some.inj h
          refine ⟨swm, ?_, rfl, by simp [hts], le_refl _, fun he => absurd he hts, fun _ => rfl⟩
          rw [lookupT_insertT_ne _ _ _ _ (Ne.symm hts)]
          exact hl
        · rw [if_neg hlt] at h
          cases Option.some.inj h
          refine ⟨swm, ?_, rfl, by simp [hts], le_refl _, fun he => absurd he hts, fun _ => rfl⟩
          rw [lookupT_insertT_ne _ _ _ _ (Ne.symm hts)]
          exact hl

/-- Across a whole batch, every pre-existing series-table entry survives
with the same identity, its sink the left fold of the merges of exactly
its own samples in arrival order, and a never-decreasing latest
truncated timestamp. -/
theorem processAll_lookup (flag : Bool) (tsr : TrendStatsResolver)
    (st : AggState) (samples : List Sample) (st' : AggState)
    (h : processAll flag tsr st samples = some st')
    (ts : TimeSeries) (swm : SeriesWithMeasure)
    (hl : lookupT st.tsdb ts = some swm) :
    ∃ swm', lookupT st'.tsdb ts = some swm'
      ∧ swm'.series = swm.series
      ∧ swm'.measure = (samples.filter (fun s => s.series = ts)).foldl Sink.add swm.measure
      ∧ swm.latest ≤ swm'.latest := by
  induction samples generalizing st swm with
  | nil =>
      unfold processAll at h
      cases Option.some.inj h
      exact ⟨swm, hl, rfl, by simp, le_refl _⟩
  | cons sample rest ih =>
      unfold processAll at h
      cases hstep : processSample flag tsr st sample with
      | none => rw [hstep] at h; cases h
      | some st1 =>
          rw [hstep] at h
          obtain ⟨swm1, hl1, hser1, hmeas1, hlat1, _, _⟩ :=
            processSample_lookup flag tsr st sample st1 hstep ts swm hl
          obtain ⟨swm', hl', hser', hmeas', hlat'⟩ := ih st1 h swm1 hl1
          refine ⟨swm', hl', hser'.trans hser1, ?_, le_trans hlat1 hlat'⟩
          rw [hmeas', hmeas1]
          by_cases hts : sample.series = ts
          · simp [hts, List.filter_cons]
          · simp [hts, List.filter_cons]

/-! ## Claim theorems -/

/-- C1: for every sample processed in a flush cycle the aggregation engine
follows the per-sample algorithm — if no SeriesState exists for the
sample's identity, one is created with the kind-appropriate sink, its
latest timestamp set to the millisecond-truncated sample time, and the
identity marked advanced; if one exists and the truncated time is
strictly greater than the stored latest, the latest is updated and the
identity marked; if the truncated time is equal or less, the mark set is
left unchanged and so is the stored latest; in every case the sample's
raw value is merged into the sink. -/
theorem aggregation_step_follows_spec
    (flag : Bool) (tsr : TrendStatsResolver) (st : AggState) (sample : Sample)
    (st' : AggState) (h : processSample flag tsr st sample = some st') :
    (lookupT st.tsdb sample.series = none →
      ∀ swm0, newSeriesWithMeasure sample.series flag tsr = some swm0 →
        lookupT st'.tsdb sample.series =
          some ⟨sample.series, swm0.measure.add sample, truncMs sample.time⟩
        ∧ sample.series ∈ st'.seen)
    ∧ (∀ swm, lookupT st.tsdb sample.series = some swm →
        (swm.latest < truncMs sample.time →
          lookupT st'.tsdb sample.series =
            some ⟨swm.series, swm.measure.add sample, truncMs sample.time⟩
          ∧ sample.series ∈ st'.seen)
        ∧ (truncMs sample.time ≤ swm.latest →
          lookupT st'.tsdb sample.series =
            some ⟨swm.series, swm.measure.add sample, swm.latest⟩
          ∧ st'.seen = st.seen)) := by
  unfold processSample at h
  constructor
  · intro hnone swm0 hnew
    simp only [hnone, hnew] at h
    cases Option.some.inj h
    have hser := newSeriesWithMeasure_series _ _ _ _ hnew
    refine ⟨?_, mem_insertSeen_self _ _⟩
    rw [← hser]
    exact lookupT_insertT_self _ _ _
  · intro swm hsome
    simp only [hsome] at h
    constructor
    · intro hlt
      rw [if_pos hlt] at h
      cases Option.some.inj h
      exact ⟨lookupT_insertT_self _ _ _, mem_insertSeen_self _ _⟩
    · intro hle
      rw [if_neg (not_lt.2 hle)] at h
      cases Option.some.inj h
      exact ⟨lookupT_insertT_self _ _ _, rfl⟩

/-- Witness for C1: processing a counter sample against an empty series
table creates the entry with the counter sink, merged value and truncated
time, and marks the identity. -/
theorem aggregation_step_follows_spec_witness :
    ∃ st', processSample false [] ⟨[], []⟩
        ⟨⟨['c'], MetricType.counter, []⟩, 1500000, 2⟩ = some st'
      ∧ lookupT st'.tsdb ⟨['c'], MetricType.counter, []⟩ =
          some ⟨⟨['c'], MetricType.counter, []⟩,
                Sink.add (Sink.counterSink 0) ⟨⟨['c'], MetricType.counter, []⟩, 1500000, 2⟩,
                truncMs 1500000⟩
      ∧ (⟨['c'], MetricType.counter, []⟩ : TimeSeries) ∈ st'.seen := by
  refine ⟨_, rfl, ?_⟩
  exact (aggregation_step_follows_spec false [] ⟨[], []⟩
      ⟨⟨['c'], MetricType.counter, []⟩, 1500000, 2⟩ _ rfl).1 rfl
      ⟨⟨['c'], MetricType.counter, []⟩, Sink.counterSink 0, 0⟩ rfl

/-- C3: the stored latest truncated timestamp is monotonically
non-decreasing per series — across any batch of processed samples it
never decreases, and a single step whose incoming truncated time is equal
or smaller leaves it unchanged. -/
theorem latest_timestamp_monotone :
    (∀ (flag : Bool) (tsr : TrendStatsResolver) (st : AggState)
        (samples : List Sample) (st' : AggState) (ts : TimeSeries)
        (swm swm' : SeriesWithMeasure),
        processAll flag tsr st samples = some st' →
        lookupT st.tsdb ts = some swm →
        lookupT st'.tsdb ts = some swm' →
        swm.latest ≤ swm'.latest)
    ∧ (∀ (flag : Bool) (tsr : TrendStatsResolver) (st : AggState) (sample : Sample)
        (st1 : AggState) (swm swm1 : SeriesWithMeasure),
        processSample flag tsr st sample = some st1 →
        lookupT st.tsdb sample.series = some swm →
        lookupT st1.tsdb sample.series = some swm1 →
        truncMs sample.time ≤ swm.latest →
        swm1.latest = swm.latest) := by
  constructor
  · intro flag tsr st samples st' ts swm swm' h hl hl'
    obtain ⟨swm'', hl'', _, _, hle⟩ := processAll_lookup flag tsr st samples st' h ts swm hl
    rw [hl'] at hl''
    cases Option.some.inj hl''
    exact hle
  · intro flag tsr st sample st1 swm swm1 h hl hl1 hle
    obtain ⟨swm2, hl2, _, _, _, hunch, _⟩ :=
      processSample_lookup flag tsr st sample st1 h sample.series swm hl
    rw [hl1] at hl2
    cases Option.some.inj hl2
    exact hunch rfl hle

/-- Witness for C3: a sample whose truncated time (1 ms) is older than the
stored latest (5 ms) leaves the latest at 5 ms, which is in particular
not smaller. -/
theorem latest_timestamp_monotone_witness :
    ∃ st' swm',
      processAll false []
        ⟨[(⟨['c'], MetricType.counter, []⟩,
           ⟨⟨['c'], MetricType.counter, []⟩, Sink.counterSink 0, 5000000⟩)], []⟩
        [⟨⟨['c'], MetricType.counter, []⟩, 1000000, 1⟩] = some st'
      ∧ lookupT st'.tsdb ⟨['c'], MetricType.counter, []⟩ = some swm'
      ∧ 5000000 ≤ swm'.latest
      ∧ swm'.latest = 5000000 := by
  refine ⟨⟨[(⟨['c'], MetricType.counter, []⟩,
      ⟨⟨['c'], MetricType.counter, []⟩,
       Sink.add (Sink.counterSink 0) ⟨⟨['c'], MetricType.counter, []⟩, 1000000, 1⟩,
       5000000⟩)], []⟩,
    ⟨⟨['c'], MetricType.counter, []⟩,
     Sink.add (Sink.counterSink 0) ⟨⟨['c'], MetricType.counter, []⟩, 1000000, 1⟩,
     5000000⟩, rfl, rfl, ?_, ?_⟩
  · exact latest_timestamp_monotone.1 false []
      ⟨[(⟨['c'], MetricType.counter, []⟩,
         ⟨⟨['c'], MetricType.counter, []⟩, Sink.counterSink 0, 5000000⟩)], []⟩
      [⟨⟨['c'], MetricType.counter, []⟩, 1000000, 1⟩] _ ⟨['c'], MetricType.counter, []⟩
      ⟨⟨['c'], MetricType.counter, []⟩, Sink.counterSink 0, 5000000⟩ _ rfl rfl rfl
  · exact latest_timestamp_monotone.2 false []
      ⟨[(⟨['c'], MetricType.counter, []⟩,
         ⟨⟨['c'], MetricType.counter, []⟩, Sink.counterSink 0, 5000000⟩)], []⟩
      ⟨⟨['c'], MetricType.counter, []⟩, 1000000, 1⟩ _
      ⟨⟨['c'], MetricType.counter, []⟩, Sink.counterSink 0, 5000000⟩ _ rfl rfl rfl
      (by decide)

/-- C10: a requested percentile statistic of the form `p(x)` is stored —
and hence suffixes the emitted wire series name — under the key built by
stripping the two leading bytes and the trailing parenthesis, deleting
every dot, and prepending `p` (so `p(95)` becomes `p95` and `p(0.95)`
becomes `p095`); any non-percentile name is stored under its literal name
unchanged, and `setTrendStatsResolver` stores every resolver under the
transformed key of its statistic name. -/
theorem trend_stat_key_spec :
    (∀ x : List Char, statKey ('p' :: '(' :: (x ++ [')'])) =
        'p' :: x.filter (fun c => c ≠ '.'))
    ∧ statKey (String.toList "p(95)") = String.toList "p95"
    ∧ statKey (String.toList "p(0.95)") = String.toList "p095"
    ∧ (∀ s : List Char, s.take 2 ≠ ['p', '('] → statKey s = s)
    ∧ (∀ (gr : List (List Char) → Except String TrendStatsResolver)
        (stats : List (List Char)) (rs : TrendStatsResolver),
        gr (stats.filter (fun s => s ≠ sumStat)) = .ok rs →
        setTrendStatsResolver gr stats =
          .ok ((if stats.contains sumStat then rs ++ [(sumStat, sumResolver)] else rs).map
            (fun p => (statKey p.1, p.2)))) := by
  refine ⟨?_, by decide, by decide, ?_, ?_⟩
  · intro x
    simp [statKey]
  · intro s h
    simp [statKey, h]
  · intro gr stats rs h
    simp only [setTrendStatsResolver, h]

/-- Witness for C10: the non-percentile name `avg` is kept unchanged, and
a requested `sum` is stored under its literal key with the special
resolver. -/
theorem trend_stat_key_spec_witness :
    statKey (String.toList "avg") = String.toList "avg"
    ∧ setTrendStatsResolver (fun _ => .ok []) [String.toList "sum"] =
        .ok [(sumStat, sumResolver)] := by
  constructor
  · exact trend_stat_key_spec.2.2.2.1 (String.toList "avg") (by decide)
  · have h := trend_stat_key_spec.2.2.2.2 (fun _ => .ok []) [String.toList "sum"] [] rfl
    simpa [statKey, sumStat] using h

/-- C6: when the configured trend statistics are non-empty and contain a
name the resolver collaborator cannot resolve, construction fails with
that error before any flush runs; when every requested name resolves
(the literal `sum` being handled specially and always accepted),
construction succeeds. -/
theorem new_construction_trend_stats :
    ∀ (gr : List (List Char) → Except String TrendStatsResolver)
      (stats : List (List Char)),
      (∀ e, stats ≠ [] →
        gr (stats.filter (fun s => s ≠ sumStat)) = .error e →
        newTrendStage gr stats = .error e)
      ∧ (∀ rs, gr (stats.filter (fun s => s ≠ sumStat)) = .ok rs →
        ∃ t, newTrendStage gr stats = .ok t) := by
  intro gr stats
  constructor
  · intro e hne h
    have hlen : stats.length > 0 := List.length_pos.2 hne
    simp only [newTrendStage, if_pos hlen, setTrendStatsResolver, h]
  · intro rs h
    by_cases hlen : stats.length > 0
    · refine ⟨(if stats.contains sumStat then rs ++ [(sumStat, sumResolver)] else rs).map
        (fun p => (statKey p.1, p.2)), ?_⟩
      simp only [newTrendStage, if_pos hlen, setTrendStatsResolver, h]
    · exact ⟨[], by simp only [newTrendStage, if_neg hlen]⟩

/-- Witness for C6: a single unresolvable name makes construction fail
with the resolver's error; a resolvable list containing `sum` constructs
successfully. -/
theorem new_construction_trend_stats_witness :
    newTrendStage (fun _ => .error "unknown stat") [String.toList "bogus"] =
      .error "unknown stat"
    ∧ ∃ t, newTrendStage (fun _ => .ok []) [String.toList "avg", String.toList "sum"] =
      .ok t := by
  constructor
  · exact (new_construction_trend_stats (fun _ => .error "unknown stat")
      [String.toList "bogus"]).1 "unknown stat" (by decide) rfl
  · exact (new_construction_trend_stats (fun _ => .ok [])
      [String.toList "avg", String.toList "sum"]).2 [] rfl

/-- C7: a metric kind outside the recognized set reaching the sink factory
or the encoder aborts the process (the modelled panic, `none`) instead of
returning a recoverable value. -/
theorem unrecognized_kind_aborts :
    ∀ (s : String) (flag : Bool) (tsr : TrendStatsResolver)
      (series : TimeSeries) (swm : SeriesWithMeasure),
      (series.type = MetricType.other s → newSeriesWithMeasure series flag tsr = none)
      ∧ (swm.series.type = MetricType.other s → MapPrompb tsr swm = none) := by
  intro s flag tsr series swm
  constructor
  · intro h
    simp [newSeriesWithMeasure, h]
  · intro h
    cases hm : swm.measure <;> simp [MapPrompb, h, hm]

/-- Witness for C7: the kind `other "made-up"` is rejected by both the
sink factory and the encoder. -/
theorem unrecognized_kind_aborts_witness :
    newSeriesWithMeasure ⟨['x'], MetricType.other "made-up", []⟩ false [] = none
    ∧ MapPrompb [] ⟨⟨['x'], MetricType.other "made-up", []⟩, Sink.counterSink 0, 0⟩ = none := by
  constructor
  · exact (unrecognized_kind_aborts "made-up" false []
      ⟨['x'], MetricType.other "made-up", []⟩
      ⟨⟨['x'], MetricType.other "made-up", []⟩, Sink.counterSink 0, 0⟩).1 rfl
  · exact (unrecognized_kind_aborts "made-up" false []
      ⟨['x'], MetricType.other "made-up", []⟩
      ⟨⟨['x'], MetricType.other "made-up", []⟩, Sink.counterSink 0, 0⟩).2 rfl

/-- C5: a flush tick whose drained buffer yields zero sample containers
performs no network interaction, leaves the series table unchanged, and
produces an empty advanced set. -/
theorem empty_flush_skips :
    ∀ (flag : Bool) (tsr : TrendStatsResolver) (interval : Nat) (storeOk : Bool)
      (db : Tsdb) (elapsed : Nat),
      (flush flag tsr interval storeOk db [] elapsed).map FlushResult.sent = some []
      ∧ (flush flag tsr interval storeOk db [] elapsed).map FlushResult.tsdb = some db
      ∧ (flush flag tsr interval storeOk db [] elapsed).map FlushResult.advanced = some [] := by
  intro flag tsr interval storeOk db elapsed
  exact ⟨rfl, rfl, rfl⟩

theorem flush_nonempty_eq (flag : Bool) (tsr : TrendStatsResolver)
    (interval : Nat) (storeOk : Bool) (db : Tsdb) (cs : List (List Sample))
    (elapsed : Nat) (res : ConvertResult)
    (hlen : ¬ cs.length < 1)
    (hconv : convertToPbSeries flag tsr db cs = some res) :
    flush flag tsr interval storeOk db cs elapsed =
      if storeOk then
        some ⟨res.tsdb, res.seen, [res.pbseries],
          [.debug "Converted samples to Prometheus TimeSeries", deferredLog interval elapsed]⟩
      else
        some ⟨res.tsdb, res.seen, [res.pbseries],
          [.debug "Converted samples to Prometheus TimeSeries",
           .error "Failed to send the time series data to the endpoint",
           deferredLog interval elapsed]⟩ := by
  unfold flush
  rw [if_neg hlen, hconv]

theorem no_warn_in_append (pre : List LogEvent) (interval elapsed : Nat)
    (hpre : ∀ l ∈ pre, l.isWarn = false) :
    (∃ l ∈ pre ++ [deferredLog interval elapsed], l.isWarn = true) ↔ interval < elapsed := by
  constructor
  · rintro ⟨l, hl, hw⟩
    rcases List.mem_append.1 hl with hmem | hmem
    · rw [hpre l hmem] at hw
      cases hw
    · rw [List.mem_singleton.1 hmem] at hw
      by_contra hlt
      simp [deferredLog, hlt, LogEvent.isWarn] at hw
  · intro hlt
    exact ⟨deferredLog interval elapsed, List.mem_append.2 (Or.inr (by simp)),
      by simp [deferredLog, hlt, LogEvent.isWarn]⟩

/-- C9: a flush execution emits the operator-visible warning exactly when
its measured elapsed time strictly exceeds the configured flush
interval. -/
theorem flush_overrun_warning :
    ∀ (flag : Bool) (tsr : TrendStatsResolver) (interval : Nat) (storeOk : Bool)
      (db : Tsdb) (cs : List (List Sample)) (elapsed : Nat) (r : FlushResult),
      flush flag tsr interval storeOk db cs elapsed = some r →
      ((∃ l ∈ r.logs, l.isWarn = true) ↔ interval < elapsed) := by
  intro flag tsr interval storeOk db cs elapsed r h
  by_cases hlen : cs.length < 1
  · unfold flush at h
    rw [if_pos hlen] at h
    cases Option.some.inj h
    exact no_warn_in_append [.debug "no buffered samples, skip the flushing operation"]
      interval elapsed (by intro l hl; simp at hl; simp [hl, LogEvent.isWarn])
  · cases hconv : convertToPbSeries flag tsr db cs with
    | none =>
        unfold flush at h
        rw [if_neg hlen, hconv] at h
        cases h
    | some res =>
        rw [flush_nonempty_eq flag tsr interval storeOk db cs elapsed res hlen hconv] at h
        by_cases hok : storeOk
        · rw [if_pos hok] at h
          cases Option.some.inj h
          exact no_warn_in_append [.debug "Converted samples to Prometheus TimeSeries"]
            interval elapsed (by intro l hl; simp at hl; simp [hl, LogEvent.isWarn])
        · rw [if_neg hok] at h
          cases Option.some.inj h
          exact no_warn_in_append
            [.debug "Converted samples to Prometheus TimeSeries",
             .error "Failed to send the time series data to the endpoint"]
            interval elapsed
            (by intro l hl; simp at hl; rcases hl with rfl | rfl <;> simp [LogEvent.isWarn])

/-- Witness for C9: with an interval of 1 ns and an elapsed time of 2 ns,
the (empty-buffer) flush logs the warning. -/
theorem flush_overrun_warning_witness :
    ∃ r, flush false [] 1 true [] [] 2 = some r ∧ ∃ l ∈ r.logs, l.isWarn = true := by
  refine ⟨_, rfl, ?_⟩
  exact (flush_overrun_warning false [] 1 true [] [] 2 _ rfl).2 (by decide)

/-- C8: when the transport reports a delivery failure, the flush logs an
error and returns normally; the updated series table, the advanced set
and the single attempted batch are exactly those of a successful cycle —
the batch is handed to the transport exactly once (no retry) and the
series-table updates are kept. -/
theorem store_failure_contained :
    ∀ (flag : Bool) (tsr : TrendStatsResolver) (interval : Nat) (db : Tsdb)
      (cs : List (List Sample)) (elapsed : Nat) (r r' : FlushResult),
      cs ≠ [] →
      flush flag tsr interval false db cs elapsed = some r →
      flush flag tsr interval true db cs elapsed = some r' →
      r.tsdb = r'.tsdb ∧ r.advanced = r'.advanced ∧ r.sent = r'.sent
      ∧ r.sent.length = 1
      ∧ (∃ l ∈ r.logs, l.isError = true) := by
  intro flag tsr interval db cs elapsed r r' hne h h'
  have hlen : ¬ cs.length < 1 := by
    simpa [Nat.lt_one_iff] using List.length_pos.2 hne |>.ne'
  cases hconv : convertToPbSeries flag tsr db cs with
  | none =>
      unfold flush at h
      rw [if_neg hlen, hconv] at h
      cases h
  | some res =>
      rw [flush_nonempty_eq flag tsr interval false db cs elapsed res hlen hconv] at h
      rw [flush_nonempty_eq flag tsr interval true db cs elapsed res hlen hconv] at h'
      rw [if_neg (by simp)] at h
      rw [if_pos rfl] at h'
      cases Option.some.inj h
      cases Option.some.inj h'
      refine ⟨rfl, rfl, rfl, rfl, ?_⟩
      exact ⟨.error "Failed to send the time series data to the endpoint", by simp,
        by simp [LogEvent.isError]⟩

/-- Witness for C8: a failing transport on a one-counter-sample flush
leaves the same state and batch as the succeeding transport, with an
error logged. -/
theorem store_failure_contained_witness :
    ∃ r r',
      flush false [] 10 false []
        [[⟨⟨['c'], MetricType.counter, []⟩, 1000000, 1⟩]] 0 = some r
      ∧ flush false [] 10 true []
        [[⟨⟨['c'], MetricType.counter, []⟩, 1000000, 1⟩]] 0 = some r'
      ∧ r.tsdb = r'.tsdb ∧ r.sent.length = 1 ∧ (∃ l ∈ r.logs, l.isError = true) := by
  refine ⟨_, _, rfl, rfl, ?_⟩
  have h := store_failure_contained false [] 10 []
    [[⟨⟨['c'], MetricType.counter, []⟩, 1000000, 1⟩]] 0 _ _ (by decide) rfl rfl
  exact ⟨h.1, h.2.2.2.1, h.2.2.2.2⟩

theorem processSample_seen_nodup (flag : Bool) (tsr : TrendStatsResolver)
    (st : AggState) (sample : Sample) (st' : AggState)
    (h : processSample flag tsr st sample = some st')
    (hn : st.seen.Nodup) : st'.seen.Nodup := by
  unfold processSample at h
  cases hls : lookupT st.tsdb sample.series with
  | none =>
      simp only [hls] at h
      cases hnew : newSeriesWithMeasure sample.series flag tsr with
      | none => rw [hnew] at h; cases h
      | some swm0 =>
          rw [hnew] at h
          cases Option.some.inj h
          exact nodup_insertSeen _ _ hn
  | some swm =>
      simp only [hls] at h
      by_cases hlt : swm.latest < truncMs sample.time
      · rw [if_pos hlt] at h
        cases Option.some.inj h
        exact nodup_insertSeen _ _ hn
      · rw [if_neg hlt] at h
        cases Option.some.inj h
        exact hn

theorem processAll_seen_nodup (flag : Bool) (tsr : TrendStatsResolver)
    (st : AggState) (samples : List Sample) (st' : AggState)
    (h : processAll flag tsr st samples = some st')
    (hn : st.seen.Nodup) : st'.seen.Nodup := by
  induction samples generalizing st with
  | nil =>
      unfold processAll at h
      cases Option.some.inj h
      exact hn
  | cons sample rest ih =>
      unfold processAll at h
      cases hstep : processSample flag tsr st sample with
      | none => rw [hstep] at h; cases h
      | some st1 =>
          rw [hstep] at h
          exact ih st1 h (processSample_seen_nodup flag tsr st sample st1 hstep hn)

theorem MapPrompb_shape (tsr : TrendStatsResolver) (swm : SeriesWithMeasure)
    (l : List PbTimeSeries) (h : MapPrompb tsr swm = some l) :
    ∀ pbts ∈ l, pbts.samples.length ≤ 1 ∧ pbts.histograms.length ≤ 1 := by
  intro pbts hmem
  unfold MapPrompb at h
  cases htype : swm.series.type <;> cases hm : swm.measure <;>
    simp only [htype, hm] at h <;> (try exact Option.noConfusion h) <;>
    cases Option.some.inj h
  all_goals
    first
      | (rw [List.mem_singleton.1 hmem]
         exact ⟨by simp, by simp⟩)
      | (obtain ⟨stat, hstat, hst⟩ := List.mem_map.1 hmem
         rw [← hst]
         exact ⟨by simp, by simp⟩)

theorem encodeSeen_mem (tsr : TrendStatsResolver) (db : Tsdb)
    (seen : List TimeSeries) (pb : List PbTimeSeries)
    (h : encodeSeen tsr db seen = some pb) :
    ∀ pbts ∈ pb, ∃ ts ∈ seen, ∃ swm l, lookupT db ts = some swm
      ∧ MapPrompb tsr swm = some l ∧ pbts ∈ l := by
  induction seen generalizing pb with
  | nil =>
      unfold encodeSeen at h
      cases Option.some.inj h
      intro pbts hmem
      cases hmem
  | cons ts rest ih =>
      unfold encodeSeen at h
      cases hls : lookupT db ts with
      | none => simp only [hls] at h; cases h
      | some swm =>
          simp only [hls] at h
          cases hmap : MapPrompb tsr swm with
          | none => simp only [hmap] at h; cases h
          | some l =>
              simp only [hmap] at h
              cases henc : encodeSeen tsr db rest with
              | none => simp only [henc] at h; cases h
              | some r =>
                  simp only [henc] at h
                  cases Option.some.inj h
                  intro pbts hmem
                  rcases List.mem_append.1 hmem with hin | hin
                  · exact ⟨ts, by simp, swm, l, hls, hmap, hin⟩
                  · obtain ⟨ts', hts', swm', l', hl', hm', hin'⟩ := ih r henc pbts hin
                    exact ⟨ts', by simp [hts'], swm', l', hl', hm', hin'⟩

/-- Counterexample to C2 as stated: one classic-trend identity with two
configured statistics, seen once in the cycle, produces two wire points
that carry the same timestamp (5 ms) — more than "at most one point" for
that identity. -/
theorem dedup_claim_counterexample :
    ∃ res, convertToPbSeries false
        [(['a'], fun v => v.headD 0), (['m'], fun _ => 0)] []
        [[⟨⟨['d'], MetricType.trend, []⟩, 5000000, 3⟩]] = some res
      ∧ res.seen = [⟨['d'], MetricType.trend, []⟩]
      ∧ res.pbseries.flatMap PbTimeSeries.samples = [⟨5, 3⟩, ⟨5, 0⟩] := by
  exact ⟨_, rfl, rfl, rfl⟩

/-- C2 (amended): in every flush conversion the advanced set holds each
identity at most once, every emitted wire time series carries at most one
point and at most one histogram — so no wire series ever contains two
points with the same timestamp — and every emitted wire series is encoded
from the series-table entry of an identity marked advanced in that cycle;
a classic-trend identity may emit several single-point wire series, one
per configured statistic. -/
theorem dedup_per_wire_series :
    ∀ (flag : Bool) (tsr : TrendStatsResolver) (db : Tsdb)
      (cs : List (List Sample)) (res : ConvertResult),
      convertToPbSeries flag tsr db cs = some res →
      res.seen.Nodup
      ∧ (∀ pbts ∈ res.pbseries, pbts.samples.length ≤ 1 ∧ pbts.histograms.length ≤ 1)
      ∧ (∀ pbts ∈ res.pbseries, ∃ ts ∈ res.seen, ∃ swm l,
          lookupT res.tsdb ts = some swm ∧ MapPrompb tsr swm = some l ∧ pbts ∈ l) := by
  intro flag tsr db cs res h
  unfold convertToPbSeries at h
  cases hp : processAll flag tsr ⟨db, []⟩ (cs.flatMap (fun c => c)) with
  | none => rw [hp] at h; cases h
  | some st =>
      simp only [hp] at h
      cases henc : encodeSeen tsr st.tsdb st.seen with
      | none => simp only [henc] at h; cases h
      | some pb =>
          simp only [henc] at h
          cases Option.some.inj h
          refine ⟨processAll_seen_nodup flag tsr ⟨db, []⟩ _ st hp List.nodup_nil, ?_, ?_⟩
          · intro pbts hmem
            obtain ⟨ts, _, swm, l, _, hmap, hin⟩ := encodeSeen_mem tsr st.tsdb st.seen pb henc pbts hmem
            exact MapPrompb_shape tsr swm l hmap pbts hin
          · exact encodeSeen_mem tsr st.tsdb st.seen pb henc

/-- Witness for C2 (amended): two counter samples falling into the same
truncated millisecond yield a duplicate-free advanced set and wire series
with at most one point each. -/
theorem dedup_per_wire_series_witness :
    ∃ res, convertToPbSeries false [] []
        [[⟨⟨['c'], MetricType.counter, []⟩, 1000000, 1⟩,
          ⟨⟨['c'], MetricType.counter, []⟩, 1200000, 1⟩]] = some res
      ∧ res.seen.Nodup
      ∧ (∀ pbts ∈ res.pbseries, pbts.samples.length ≤ 1 ∧ pbts.histograms.length ≤ 1) := by
  have h := dedup_per_wire_series false [] []
    [[⟨⟨['c'], MetricType.counter, []⟩, 1000000, 1⟩,
      ⟨⟨['c'], MetricType.counter, []⟩, 1200000, 1⟩]] _ rfl
  exact ⟨_, rfl, h.1, h.2.1⟩

/-- The last element of a list, or a default: the value a gauge sink holds
after a sequence of overwrites. -/
def lastValueD (l : List Rat) (d : Rat) : Rat :=
  match l with
  | [] => d
  | v :: rest => lastValueD rest v

theorem foldl_add_counter (l : List Sample) (c : Rat) :
    l.foldl Sink.add (Sink.counterSink c) =
      Sink.counterSink (c + (l.map Sample.value).sum) := by
  induction l generalizing c with
  | nil => simp
  | cons s rest ih => simp [Sink.add, ih, add_assoc]

theorem foldl_add_gauge (l : List Sample) (g : Rat) :
    l.foldl Sink.add (Sink.gaugeSink g) =
      Sink.gaugeSink (lastValueD (l.map Sample.value) g) := by
  induction l generalizing g with
  | nil => simp [lastValueD]
  | cons s rest ih => simp [Sink.add, ih, lastValueD]

theorem foldl_add_rate (l : List Sample) (a b : Nat) :
    l.foldl Sink.add (Sink.rateSink a b) =
      Sink.rateSink (a + (l.filter (fun s => s.value ≠ 0)).length) (b + l.length) := by
  induction l generalizing a b with
  | nil => simp
  | cons s rest ih =>
      by_cases hv : s.value ≠ 0 <;>
        simp [Sink.add, hv, ih, List.filter_cons, Sink.rateSink.injEq] <;> omega

/-- Counterexample to C4 as stated: after a first flush with two non-zero
rate samples and a second flush with one zero sample, the emitted rate
value is the cumulative 2/3 over the whole run — not the most recent
window's state 0/1 = 0. -/
theorem window_state_counterexample :
    ∃ r1 r2,
      flush false [] 10 true []
        [[⟨⟨['r'], MetricType.rate, []⟩, 1000000, 1⟩,
          ⟨⟨['r'], MetricType.rate, []⟩, 2000000, 1⟩]] 0 = some r1
      ∧ flush false [] 10 true r1.tsdb
        [[⟨⟨['r'], MetricType.rate, []⟩, 3000000, 0⟩]] 0 = some r2
      ∧ r2.sent = [[⟨MapSeries ⟨['r'], MetricType.rate, []⟩ [],
          [⟨3, rateValue 2 3⟩], []⟩]]
      ∧ rateValue 2 3 ≠ rateValue 0 1 := by
  refine ⟨_, _, rfl, rfl, rfl, ?_⟩
  norm_num [rateValue]

/-- C4 (amended): the series state and its sink persist across flush
cycles and are never reset, so over any run a Counter sink accumulates
the sum of all of its samples' values and emits that cumulative sum; a
Gauge sink holds and emits the last written value; and a Rate sink
counts non-zero and total samples over the whole run, emitting the
cumulative ratio — not only the most recent window's state. -/
theorem run_accumulation_semantics :
    ∀ (flag : Bool) (tsr : TrendStatsResolver) (st : AggState)
      (samples : List Sample) (st' : AggState) (ts : TimeSeries)
      (swm swm' : SeriesWithMeasure),
      processAll flag tsr st samples = some st' →
      lookupT st.tsdb ts = some swm →
      lookupT st'.tsdb ts = some swm' →
      (∀ c, swm.measure = .counterSink c →
        swm'.measure = .counterSink
          (c + ((samples.filter (fun s => s.series = ts)).map Sample.value).sum))
      ∧ (∀ g, swm.measure = .gaugeSink g →
        swm'.measure = .gaugeSink
          (lastValueD ((samples.filter (fun s => s.series = ts)).map Sample.value) g))
      ∧ (∀ a b, swm.measure = .rateSink a b →
        swm'.measure = .rateSink
          (a + ((samples.filter (fun s => s.series = ts)).filter
              (fun s => s.value ≠ 0)).length)
          (b + (samples.filter (fun s => s.series = ts)).length))
      ∧ (∀ v, swm'.series.type = MetricType.counter → swm'.measure = .counterSink v →
        MapPrompb tsr swm' =
          some [⟨MapSeries swm'.series [], [⟨unixMilli swm'.latest, v⟩], []⟩])
      ∧ (∀ g, swm'.series.type = MetricType.gauge → swm'.measure = .gaugeSink g →
        MapPrompb tsr swm' =
          some [⟨MapSeries swm'.series [], [⟨unixMilli swm'.latest, g⟩], []⟩])
      ∧ (∀ a b, swm'.series.type = MetricType.rate → swm'.measure = .rateSink a b →
        MapPrompb tsr swm' =
          some [⟨MapSeries swm'.series [], [⟨unixMilli swm'.latest, rateValue a b⟩], []⟩]) := by
  intro flag tsr st samples st' ts swm swm' h hl hl'
  obtain ⟨swm'', hl'', hser, hmeas, _⟩ := processAll_lookup flag tsr st samples st' h ts swm hl
  rw [hl'] at hl''
  cases Option.some.inj hl''
  refine ⟨?_, ?_, ?_, ?_, ?_, ?_⟩
  · intro c hc
    rw [hmeas, hc]
    exact foldl_add_counter _ c
  · intro g hg
    rw [hmeas, hg]
    exact foldl_add_gauge _ g
  · intro a b hab
    rw [hmeas, hab]
    exact foldl_add_rate _ a b
  · intro v htype hm
    unfold MapPrompb
    simp only [htype, hm]
  · intro g htype hm
    unfold MapPrompb
    simp only [htype, hm]
  · intro a b htype hm
    unfold MapPrompb
    simp only [htype, hm]

/-- Witness for C4 (amended): a rate series that receives one non-zero
and one zero sample across a run ends with the cumulative counts 1/2. -/
theorem run_accumulation_semantics_witness :
    ∃ st' swm',
      processAll false [] ⟨[(⟨['r'], MetricType.rate, []⟩,
          ⟨⟨['r'], MetricType.rate, []⟩, Sink.rateSink 0 0, 0⟩)], []⟩
        [⟨⟨['r'], MetricType.rate, []⟩, 1000000, 1⟩,
         ⟨⟨['r'], MetricType.rate, []⟩, 2000000, 0⟩] = some st'
      ∧ lookupT st'.tsdb ⟨['r'], MetricType.rate, []⟩ = some swm'
      ∧ swm'.measure = Sink.rateSink (0 + 1) (0 + 2) := by
  refine ⟨_, _, rfl, rfl, ?_⟩
  exact (run_accumulation_semantics false []
    ⟨[(⟨['r'], MetricType.rate, []⟩,
       ⟨⟨['r'], MetricType.rate, []⟩, Sink.rateSink 0 0, 0⟩)], []⟩
    [⟨⟨['r'], MetricType.rate, []⟩, 1000000, 1⟩,
     ⟨⟨['r'], MetricType.rate, []⟩, 2000000, 0⟩] _
    ⟨['r'], MetricType.rate, []⟩ _ _ rfl rfl rfl).2.2.1 0 0 rfl

end RemoteWrite
